import Mathlib

/-!
Verification development for the real-time event-delivery subsystem of the
websitestats backend: the connection registry (`websocket_manager.py`), the
durable-write-then-best-effort-push dispatch pattern used by the mutation
triggers (`installations.py`, `sales.py`), the mark-read persistence
operations (`notifications.py`), and the websocket endpoint (`main.py`).

The Python code is shallowly embedded: the registry dict
`Dict[int, Set[WebSocket]]` becomes an association list from user id to the
list of that user's sockets, a socket is a record carrying its
`application_state` (open or not) and whether `send_json` on it succeeds,
database effects become explicit state passing over a list of rows, and the
interleaving of INSERT / push / COMMIT in the dispatcher endpoints becomes an
explicit event trace.
-/

namespace WSM

/-- A live transport connection, as the registry sees it: the socket identity,
whether `ws.application_state == WebSocketState.CONNECTED` (`_is_open`), and
whether `await ws.send_json(...)` succeeds when attempted (a closed peer or a
write error makes it raise, which the manager catches). -/
structure Conn where
  cid : Nat
  connected : Bool
  sendOk : Bool
deriving DecidableEq, Repr

/-- The registry mapping `self._connections : Dict[int, Set[WebSocket]]`,
embedded as an association list (keys are unique in a Python dict; the
well-formedness predicates below capture that). -/
abbrev Registry := List (Nat × List Conn)

/-- A send over a connection delivers iff the socket is `CONNECTED` and
`send_json` does not raise; otherwise the manager marks it dead. -/
def healthy (c : Conn) : Bool :=
  c.connected && c.sendOk

/-- `self._connections.get(user_id, [])`: the first (only, for a dict) entry. -/
def lookup : Registry → Nat → List Conn
  | [], _ => []
  | (u, s) :: rest, uid => if u = uid then s else lookup rest uid

/-- The dict's key set. -/
def keys (r : Registry) : List Nat :=
  r.map Prod.fst

/-- `connect`: `self._connections.setdefault(user_id, set()).add(websocket)`
(the `await websocket.accept()` handshake is transport-side). Adding an
element already in the set leaves it unchanged. -/
def connect : Registry → Nat → Conn → Registry
  | [], uid, ws => [(uid, [ws])]
  | (u, s) :: rest, uid, ws =>
    if u = uid then (u, if ws ∈ s then s else s ++ [ws]) :: rest
    else (u, s) :: connect rest uid ws

/-- `disconnect`: `self._connections.pop(user_id, set())` followed by closing
every popped socket (closing is transport-side). -/
def disconnect (r : Registry) (uid : Nat) : Registry :=
  r.filter (fun p => p.1 ≠ uid)

/-- `disconnect_socket`: remove one socket from the user's set and drop the
entry when the set becomes empty; closing the socket is transport-side. -/
def disconnect_socket : Registry → Nat → Conn → Registry
  | [], _, _ => []
  | (u, s) :: rest, uid, ws =>
    if u = uid then
      if ws ∈ s then
        if s.erase ws = [] then rest else (u, s.erase ws) :: rest
      else (u, s) :: rest
    else (u, s) :: disconnect_socket rest uid ws

/-- The pruning block shared by `send_personal_message` and `broadcast`:
`s.discard(ws)` for every dead socket, then `self._connections.pop(user_id)`
if the set became empty. Only the (unique) entry for `uid` is touched. -/
def pruneDead : Registry → Nat → List Conn → Registry
  | [], _, _ => []
  | (u, s) :: rest, uid, dead =>
    if u = uid then
      if s.filter (fun c => decide (c ∉ dead)) = [] then rest
      else (u, s.filter (fun c => decide (c ∉ dead))) :: rest
    else (u, s) :: pruneDead rest uid dead

/-- Result of one `send_personal_message` call: the registry after pruning and
the list of sockets that actually received the JSON message. -/
structure SendResult where
  reg : Registry
  delivered : List Conn
deriving DecidableEq, Repr

/-- `send_personal_message(message, user_id)`: snapshot the user's sockets; if
none, log a warning and return (silent no-op). Otherwise attempt a send on
each open socket, collecting the not-open and the raising ones as `dead`,
prune them, and return. Exceptions are caught per socket; the call itself
never raises. -/
def send_personal_message (r : Registry) (uid : Nat) : SendResult :=
  if lookup r uid = [] then { reg := r, delivered := [] }
  else
    { reg :=
        if (lookup r uid).filter (fun c => !healthy c) = [] then r
        else pruneDead r uid ((lookup r uid).filter (fun c => !healthy c))
      delivered := (lookup r uid).filter healthy }

/-- The per-user body of `broadcast`'s loop: attempt a send on each socket of
the snapshot entry, prune the dead ones from the live registry. -/
def broadcastStep (r : Registry) (uid : Nat) (sockets : List Conn) :
    Registry × List Conn :=
  (if sockets.filter (fun c => !healthy c) = [] then r
   else pruneDead r uid (sockets.filter (fun c => !healthy c)),
   sockets.filter healthy)

/-- `broadcast`'s loop over the point-in-time snapshot, threading the live
registry through the pruning of each user's dead sockets and accumulating
every `(user, socket)` pair that received the message. -/
def broadcastGo : List (Nat × List Conn) → Registry → Registry × List (Nat × Conn)
  | [], r => (r, [])
  | (uid, sockets) :: rest, r =>
    ((broadcastGo rest (broadcastStep r uid sockets).1).1,
     (broadcastStep r uid sockets).2.map (fun c => (uid, c)) ++
       (broadcastGo rest (broadcastStep r uid sockets).1).2)

/-- `broadcast(message)`: snapshot the whole registry under the lock, then
fan out user by user with per-socket failure isolation. -/
def broadcast (r : Registry) : Registry × List (Nat × Conn) :=
  broadcastGo r r

/-- `user_connection_count`. -/
def user_connection_count (r : Registry) (uid : Nat) : Nat :=
  (lookup r uid).length

/-- No entry of the registry maps a user to an empty connection set. -/
def noEmptyB (r : Registry) : Bool :=
  r.all (fun p => !(p.2 = []))

/-- Propositional form of `noEmptyB`. -/
def NoEmpty (r : Registry) : Prop :=
  ∀ p ∈ r, p.2 ≠ []

instance (r : Registry) : Decidable (NoEmpty r) :=
  inferInstanceAs (Decidable (∀ p ∈ r, p.2 ≠ []))

/-- The registry a full fan-out is expected to leave behind: each user keeps
exactly the sockets whose send succeeded, and a user whose sockets all
failed is dropped entirely. -/
def pruneAll (r : Registry) : Registry :=
  r.filterMap (fun p =>
    if p.2.filter healthy = [] then none else some (p.1, p.2.filter healthy))

/-- Total number of registered sockets. -/
def totalConns (r : Registry) : Nat :=
  (r.map (fun p => p.2.length)).sum

/-- Number of registered sockets that are closed or whose send raises. -/
def failedConns (r : Registry) : Nat :=
  (r.map (fun p => (p.2.filter (fun c => !healthy c)).length)).sum

/-- Every `(user, socket)` pair a fan-out is expected to deliver to. -/
def healthyPairs (r : Registry) : List (Nat × Conn) :=
  r.flatMap (fun p => (p.2.filter healthy).map (fun c => (p.1, c)))

/-- The registry operations of the manager's public surface. -/
inductive Op where
  | register (uid : Nat) (c : Conn)
  | unregister (uid : Nat) (c : Conn)
  | unregisterAll (uid : Nat)
  | send (uid : Nat)
  | bcast
deriving DecidableEq, Repr

/-- One registry operation's effect on the mapping. -/
def step (r : Registry) : Op → Registry
  | .register uid c => connect r uid c
  | .unregister uid c => disconnect_socket r uid c
  | .unregisterAll uid => disconnect r uid
  | .send uid => (send_personal_message r uid).reg
  | .bcast => (broadcast r).1

/-- Replay of an operation sequence from the initial empty registry
(`ConnectionManager.__init__` starts with `{}`). -/
def run (ops : List Op) : Registry :=
  ops.foldl step []

end WSM

/-- The `except` branch of `websocket_endpoint` in `main.py`. When the read
loop `await websocket.receive_text()` raises (transport close or error), the
handler runs `manager.disconnect(user_id)` WITHOUT `await`: calling the async
method only creates a coroutine object, which is discarded unawaited, so the
registry is not modified at all — the effect on the manager state is the
identity. -/
def websocket_endpoint_on_error (r : WSM.Registry) (_uid : Nat) : WSM.Registry :=
  r

namespace Dispatch

/-- The observable events of one run of a dispatcher endpoint, in program
order: `insert rid uid` is `cursor.execute("INSERT INTO notifications ...")`
creating the row `rid` for user `uid` inside the open transaction,
`push uid delivered` is `await manager.send_personal_message(..., uid)` with
`delivered = true` iff at least one live socket received it, `commit` is
`conn.commit()` and `rollback` is `conn.rollback()`. -/
inductive Ev where
  | insert (rid : Nat) (uid : Nat)
  | push (uid : Nat) (delivered : Bool)
  | commit
  | rollback
deriving DecidableEq, Repr

/-- The recipients loop shared by `create_full_installation` (§5 "recipients +
WS push") and each loop of `run_sales_notifications`: for each target user,
execute the INSERT (row id allocated by AUTO_INCREMENT, modelled as `nextId`,
`nextId + 1`, ...), then push the message over the manager. `insertOk uid`
says whether that user's INSERT raises; a raising INSERT aborts the loop
(the endpoint's `except` branch takes over). Returns the registry after the
pushes, the event prefix, and whether the loop finished. -/
def notifyEvents (reg : WSM.Registry) (recips : List Nat) (insertOk : Nat → Bool)
    (nextId : Nat) : WSM.Registry × List Ev × Bool :=
  match recips with
  | [] => (reg, [], true)
  | uid :: rest =>
    if insertOk uid then
      let res := WSM.send_personal_message reg uid
      let t := notifyEvents res.reg rest insertOk (nextId + 1)
      (t.1, Ev.insert nextId uid :: Ev.push uid (decide (res.delivered ≠ [])) :: t.2.1, t.2.2)
    else (reg, [], false)

/-- The notify section of `create_full_installation`: run the recipients loop
and then `conn.commit()`; on an exception, `conn.rollback()` and re-raise as
`HTTPException(status_code=500)`. On success the endpoint answers
`{"status": "ok", "company": {...}}`, modelled here by its `status` field. -/
def create_full_installation_notify (reg : WSM.Registry) (recips : List Nat)
    (insertOk : Nat → Bool) (nextId : Nat) :
    WSM.Registry × List Ev × Except Nat String :=
  let t := notifyEvents reg recips insertOk nextId
  if t.2.2 then (t.1, t.2.1 ++ [Ev.commit], Except.ok "ok")
  else (t.1, t.2.1 ++ [Ev.rollback], Except.error 500)

/-- The `(rid, uid)` pairs of the INSERT statements executed in a trace. -/
def insertedPairs (evs : List Ev) : List (Nat × Nat) :=
  evs.filterMap (fun e =>
    match e with
    | Ev.insert rid uid => some (rid, uid)
    | _ => none)

/-- The rows durably present in the `notifications` table once the operation
has ended: the executed INSERTs if the transaction committed, nothing if it
rolled back. -/
def durableStore (evs : List Ev) : List (Nat × Nat) :=
  if Ev.commit ∈ evs then insertedPairs evs else []

/-- The users to whom a push was actually delivered on a live socket. -/
def successfulPushes (evs : List Ev) : List Nat :=
  evs.filterMap (fun e =>
    match e with
    | Ev.push uid true => some uid
    | _ => none)

/-- `pushesAfterInsert evs seen = true` iff every `push uid _` of the trace is
preceded by an `insert _ uid` for the same user (`seen` carries the users
already inserted). -/
def pushesAfterInsert : List Ev → List Nat → Bool
  | [], _ => true
  | Ev.insert _ uid :: rest, seen => pushesAfterInsert rest (uid :: seen)
  | Ev.push uid _ :: rest, seen => decide (uid ∈ seen) && pushesAfterInsert rest seen
  | Ev.commit :: rest, seen => pushesAfterInsert rest seen
  | Ev.rollback :: rest, seen => pushesAfterInsert rest seen

/-- One row of the `sales_leads` scans in `run_sales_notifications`:
`id`, `owner_user_id` (nullable; a falsy owner is skipped), `company_name`. -/
structure Lead where
  id : Nat
  owner : Option Nat
  company : String
deriving DecidableEq, Repr

/-- The JSON body `run_sales_notifications` answers on success:
`{"status": "ok", "followup": len(due_list), "stale": len(stale_list)}`. -/
structure SalesReturn where
  status : String
  followup : Nat
  stale : Nat
deriving DecidableEq, Repr

/-- One of the two loops of `run_sales_notifications`: rows without an owner
are skipped (`if not row["owner_user_id"]: continue`); for the rest, INSERT
then push. Also returns the next AUTO_INCREMENT id. -/
def salesLoop (reg : WSM.Registry) (leads : List Lead) (insertOk : Nat → Bool)
    (nextId : Nat) : WSM.Registry × List Ev × Bool × Nat :=
  match leads with
  | [] => (reg, [], true, nextId)
  | l :: rest =>
    match l.owner with
    | none => salesLoop reg rest insertOk nextId
    | some uid =>
      if insertOk uid then
        let res := WSM.send_personal_message reg uid
        let t := salesLoop res.reg rest insertOk (nextId + 1)
        (t.1, Ev.insert nextId uid :: Ev.push uid (decide (res.delivered ≠ [])) :: t.2.1,
          t.2.2.1, t.2.2.2)
      else (reg, [], false, nextId)

/-- `run_sales_notifications`: the due-follow-up loop, then the stale-offer
loop, then one `conn.commit()`; any raising INSERT reaches the `except`
branch, which rolls the whole transaction back and answers
`HTTPException(500)`. On success the endpoint returns the counts of the due
and stale scans (not the inserted row ids). -/
def run_sales_notifications (reg : WSM.Registry) (due stale : List Lead)
    (insertOk : Nat → Bool) (nextId : Nat) :
    WSM.Registry × List Ev × Except Nat SalesReturn :=
  let t1 := salesLoop reg due insertOk nextId
  if t1.2.2.1 then
    let t2 := salesLoop t1.1 stale insertOk t1.2.2.2
    if t2.2.2.1 then
      (t2.1, t1.2.1 ++ t2.2.1 ++ [Ev.commit],
        Except.ok { status := "ok", followup := due.length, stale := stale.length })
    else (t2.1, t1.2.1 ++ t2.2.1 ++ [Ev.rollback], Except.error 500)
  else (t1.1, t1.2.1 ++ [Ev.rollback], Except.error 500)

end Dispatch

namespace Wire

/-- One entry of the `"jobs"` list of the installation payload. -/
structure JobEntry where
  id : Nat
  name : Option String
  notes : Option String
deriving DecidableEq, Repr

/-- The `"company"` object of the installation payload built in
`create_full_installation`. -/
structure CompanyObj where
  id : Nat
  name : String
  offer_link : Option String
  probable_installation_date : Option String
  offer_hours : Option Nat
  notes : Option String
  creation_date : String
deriving DecidableEq, Repr

/-- The `payload` dict of `create_full_installation`: a company object and a
jobs list. -/
structure InstallPayload where
  company : CompanyObj
  jobs : List JobEntry
deriving DecidableEq, Repr

/-- A JSON value as it appears in the push-message dict literals of the two
mutation-trigger endpoints. -/
inductive JVal where
  | str (v : String)
  | nat (v : Nat)
  | objPayload (p : InstallPayload)
  | objLead (lead_id : Nat)
deriving DecidableEq, Repr

/-- A push message as passed to `manager.send_personal_message`: the dict's
key/value pairs in literal order. -/
abbrev PushMsg := List (String × JVal)

/-- The dict literal pushed by `create_full_installation`:
`{"event": "new_installation", "type": "new_installation", "message": message,
"data": payload, "timestamp": now_str}`. -/
def installPushMessage (message : String) (payload : InstallPayload)
    (now_str : String) : PushMsg :=
  [("event", JVal.str "new_installation"),
   ("type", JVal.str "new_installation"),
   ("message", JVal.str message),
   ("data", JVal.objPayload payload),
   ("timestamp", JVal.str now_str)]

/-- The dict literal pushed by the due-follow-up loop of
`run_sales_notifications`: `{"event": "sales_followup_due", "type": "sales",
"message": msg, "data": {"lead_id": row["id"]}}`. -/
def salesFollowupPushMessage (msg : String) (lead_id : Nat) : PushMsg :=
  [("event", JVal.str "sales_followup_due"),
   ("type", JVal.str "sales"),
   ("message", JVal.str msg),
   ("data", JVal.objLead lead_id)]

/-- The dict literal pushed by the stale-offer loop of
`run_sales_notifications`: `{"event": "sales_offer_stale", "type": "sales",
"message": msg, "data": {"lead_id": row["id"]}}`. -/
def salesStalePushMessage (msg : String) (lead_id : Nat) : PushMsg :=
  [("event", JVal.str "sales_offer_stale"),
   ("type", JVal.str "sales"),
   ("message", JVal.str msg),
   ("data", JVal.objLead lead_id)]

/-- The field names of a push message. -/
def msgKeys (m : PushMsg) : List String :=
  m.map Prod.fst

end Wire

namespace Notif

/-- One row of the `notifications` table, restricted to the columns the
mark-read endpoints touch. -/
structure NotifRecord where
  id : Nat
  user_id : Nat
  is_read : Bool
deriving DecidableEq, Repr

/-- The `notifications` table. -/
abbrev Store := List NotifRecord

/-- `UPDATE notifications SET is_read=1 WHERE id=%s AND user_id=%s`, with the
row count the driver reports. `mysql.connector` connects without
`CLIENT_FOUND_ROWS`, so for an UPDATE the server's affected-rows value — what
`cur.rowcount` holds — counts only the rows actually CHANGED: a matched row
whose `is_read` is already 1 is not counted. -/
def updateMarkRead : Store → Nat → Nat → Store × Nat
  | [], _, _ => ([], 0)
  | r :: rest, nid, uid =>
    let t := updateMarkRead rest nid uid
    if r.id = nid ∧ r.user_id = uid then
      if r.is_read then (r :: t.1, t.2)
      else ({ r with is_read := true } :: t.1, t.2 + 1)
    else (r :: t.1, t.2)

/-- `mark_single_read(notif_id)`: run the UPDATE, `conn.commit()`, then raise
`HTTPException(404, "Notification not found")` when `cur.rowcount == 0`, else
answer `{"updated": 1}`. The commit precedes the rowcount check, so the store
resulting from the UPDATE persists either way. -/
def mark_single_read (store : Store) (nid uid : Nat) : Store × Except Nat Nat :=
  let t := updateMarkRead store nid uid
  if t.2 = 0 then (t.1, Except.error 404) else (t.1, Except.ok 1)

/-- `mark_all_read`: `UPDATE notifications SET is_read=1 WHERE user_id=%s AND
is_read=0`, answering `{"updated": rowcount}`. -/
def mark_all_read (store : Store) (uid : Nat) : Store × Nat :=
  (store.map (fun r =>
      if r.user_id = uid && !r.is_read then { r with is_read := true } else r),
   store.countP (fun r => r.user_id == uid && !r.is_read))

/-- The `unread-count` endpoint:
`SELECT COUNT(*) FROM notifications WHERE user_id=%s AND is_read=0`. -/
def unreadCount (store : Store) (uid : Nat) : Nat :=
  store.countP (fun r => r.user_id == uid && !r.is_read)

end Notif

/-! ## Theorems -/

/-- C1, counterexample. In `create_full_installation` the INSERT of each
recipient's record and the push to that recipient are interleaved inside one
transaction whose `conn.commit()` comes only after the loop. With recipients
`[1, 2]`, user 1 online, and the INSERT for user 2 raising: the operation is
reported failed (HTTP 500) yet the push to user 1 was already delivered; and
even on an all-success single-recipient run the push is attempted before the
commit, i.e. before any record is durably persisted. This falsifies "the
durable persistence of every target user's Notification Record completes
before any push is attempted; if persistence fails ... no push is made". -/
theorem install_notify_push_before_durability :
    (Dispatch.create_full_installation_notify [(1, [⟨1, true, true⟩])] [1, 2]
        (fun u => decide (u = 1)) 10).2.2 = Except.error 500 ∧
    Dispatch.successfulPushes
      ((Dispatch.create_full_installation_notify [(1, [⟨1, true, true⟩])] [1, 2]
        (fun u => decide (u = 1)) 10).2.1) = [1] ∧
    (Dispatch.create_full_installation_notify [(1, [⟨1, true, true⟩])] [1]
        (fun _ => true) 10).2.1 =
      [Dispatch.Ev.insert 10 1, Dispatch.Ev.push 1 true, Dispatch.Ev.commit] :=
  ⟨rfl, rfl, rfl⟩

/-- C2, counterexample. On the rollback path of `create_full_installation`
(recipients `[1, 2]`, user 1 online, the INSERT for user 2 raising) the push
to user 1 succeeded but the durable store holds no record at all after the
operation ends: a successful push exists whose record is absent. -/
theorem install_notify_push_without_record :
    Dispatch.successfulPushes
      ((Dispatch.create_full_installation_notify [(1, [⟨1, true, true⟩])] [1, 2]
        (fun u => decide (u = 1)) 10).2.1) = [1] ∧
    Dispatch.durableStore
      ((Dispatch.create_full_installation_notify [(1, [⟨1, true, true⟩])] [1, 2]
        (fun u => decide (u = 1)) 10).2.1) = [] :=
  ⟨rfl, rfl⟩

/-- C5, counterexample. Two runs of `run_sales_notifications` that persist
different record-id sets (`{10}` versus `{20}`) return identical values
(`{"status": "ok", "followup": 1, "stale": 0}` both times): the returned
value is the pair of scan counts, not the set of persisted record
identifiers. -/
theorem sales_return_not_record_ids :
    (Dispatch.run_sales_notifications [] [⟨1, some 5, "Acme"⟩] []
        (fun _ => true) 10).2.2 =
      (Dispatch.run_sales_notifications [] [⟨1, some 5, "Acme"⟩] []
        (fun _ => true) 20).2.2 ∧
    Dispatch.durableStore ((Dispatch.run_sales_notifications [] [⟨1, some 5, "Acme"⟩] []
        (fun _ => true) 10).2.1) = [(10, 5)] ∧
    Dispatch.durableStore ((Dispatch.run_sales_notifications [] [⟨1, some 5, "Acme"⟩] []
        (fun _ => true) 20).2.1) = [(20, 5)] :=
  ⟨rfl, rfl, rfl⟩

/-- C6, counterexample. The message pushed by the due-follow-up loop of
`run_sales_notifications` carries only `event`, `type`, `message`, `data` —
no `timestamp` field — so the push shape is not the five-field object on
every mutation trigger. -/
theorem sales_push_missing_timestamp :
    Wire.msgKeys (Wire.salesFollowupPushMessage "Follow-up due today: Acme" 1) =
      ["event", "type", "message", "data"] ∧
    "timestamp" ∉ Wire.msgKeys (Wire.salesFollowupPushMessage "Follow-up due today: Acme" 1) :=
  ⟨rfl, by decide⟩

/-- C6, amended. The installation push message has exactly the fields
`event`, `type`, `message`, `data`, `timestamp` in that order; both sales
push messages have exactly `event`, `type`, `message`, `data`. -/
theorem push_message_shapes (msg now_str : String) (p : Wire.InstallPayload) (lid : Nat) :
    Wire.msgKeys (Wire.installPushMessage msg p now_str) =
      ["event", "type", "message", "data", "timestamp"] ∧
    Wire.msgKeys (Wire.salesFollowupPushMessage msg lid) =
      ["event", "type", "message", "data"] ∧
    Wire.msgKeys (Wire.salesStalePushMessage msg lid) =
      ["event", "type", "message", "data"] :=
  ⟨rfl, rfl, rfl⟩

/-- C3. `send_personal_message` with no registered sockets for the user
returns with the registry untouched and nothing delivered (a silent no-op,
nothing raised — the embedded function is total exactly because every
per-socket exception is caught in the source); and in general the message is
delivered to exactly the registered sockets that are open and whose send
succeeds — in particular to both sockets of a doubly-connected healthy
user. -/
theorem send_personal_message_contract (r : WSM.Registry) (uid : Nat) :
    (WSM.lookup r uid = [] → WSM.send_personal_message r uid = ⟨r, []⟩) ∧
    (WSM.send_personal_message r uid).delivered =
      (WSM.lookup r uid).filter WSM.healthy := by
  constructor
  · intro h
    simp [WSM.send_personal_message, h]
  · by_cases h : WSM.lookup r uid = [] <;>
      simp [WSM.send_personal_message, h]

/-- C3, witness: sending to user 5 of an empty registry is a no-op, and a
user with two healthy sockets receives the message on both. -/
theorem send_personal_message_contract_witness :
    WSM.send_personal_message [] 5 = ⟨[], []⟩ ∧
    (WSM.send_personal_message [(1, [⟨1, true, true⟩, ⟨2, true, true⟩])] 1).delivered =
      [⟨1, true, true⟩, ⟨2, true, true⟩] :=
  ⟨(send_personal_message_contract [] 5).1 rfl,
    ((send_personal_message_contract [(1, [⟨1, true, true⟩, ⟨2, true, true⟩])] 1).2).trans rfl⟩

/-- The store produced by the UPDATE of `mark_single_read`: every row
matching `id = nid AND user_id = uid` gets `is_read = 1`, every other row is
untouched. -/
theorem Notif.updateMarkRead_fst (store : Notif.Store) (nid uid : Nat) :
    (Notif.updateMarkRead store nid uid).1 =
      store.map (fun r =>
        if r.id = nid ∧ r.user_id = uid then { r with is_read := true } else r) := by
  induction store with
  | nil => rfl
  | cons r rest ih =>
    obtain ⟨rid, ruid, rread⟩ := r
    by_cases hm : rid = nid ∧ ruid = uid
    · by_cases hr : rread <;> simp [Notif.updateMarkRead, hm, hr, ih]
    · simp [Notif.updateMarkRead, hm, ih]

/-- The row count the driver reports for the UPDATE of `mark_single_read`:
the number of rows matched AND actually changed (MySQL default
affected-rows semantics). -/
theorem Notif.updateMarkRead_snd (store : Notif.Store) (nid uid : Nat) :
    (Notif.updateMarkRead store nid uid).2 =
      store.countP (fun r =>
        decide ((r.id = nid ∧ r.user_id = uid) ∧ r.is_read = false)) := by
  induction store with
  | nil => rfl
  | cons r rest ih =>
    obtain ⟨rid, ruid, rread⟩ := r
    by_cases hm : rid = nid ∧ ruid = uid
    · by_cases hr : rread <;>
        simp [Notif.updateMarkRead, List.countP_cons, hm, hr, ih]
    · simp [Notif.updateMarkRead, List.countP_cons, hm, ih]

/-- Rows of other users survive the UPDATE of `mark_single_read` verbatim. -/
theorem Notif.updateMarkRead_other_users (store : Notif.Store) (nid uid : Nat) :
    (store.map (fun r =>
        if r.id = nid ∧ r.user_id = uid then { r with is_read := true } else r)).filter
      (fun r => !(r.user_id == uid)) =
      store.filter (fun r => !(r.user_id == uid)) := by
  induction store with
  | nil => rfl
  | cons r rest ih =>
    by_cases hm : r.id = nid ∧ r.user_id = uid
    · simp [List.filter_cons, hm, hm.2, ih]
    · simp [List.filter_cons, hm, ih]

/-- C10. `mark_single_read` touches only rows owned by the authenticated
caller: when no row has the requested id with the caller as owner (the id
does not exist, or the record belongs to someone else), the endpoint answers
HTTP 404 with the store unchanged; and in every case the rows of other users
are exactly preserved. -/
theorem mark_single_read_scoped (store : Notif.Store) (nid uid : Nat) :
    ((∀ r ∈ store, ¬(r.id = nid ∧ r.user_id = uid)) →
        Notif.mark_single_read store nid uid = (store, Except.error 404)) ∧
    (Notif.mark_single_read store nid uid).1.filter (fun r => !(r.user_id == uid)) =
      store.filter (fun r => !(r.user_id == uid)) := by
  constructor
  · intro h
    have h1 : (Notif.updateMarkRead store nid uid).1 = store := by
      rw [Notif.updateMarkRead_fst]
      have he : ∀ r ∈ store,
          (if r.id = nid ∧ r.user_id = uid then { r with is_read := true } else r) = r := by
        intro r hr
        simp [h r hr]
      rw [List.map_congr_left he]
      simp
    have h2 : (Notif.updateMarkRead store nid uid).2 = 0 := by
      rw [Notif.updateMarkRead_snd]
      refine List.countP_eq_zero.mpr ?_
      intro r hr
      simp [h r hr]
    simp [Notif.mark_single_read, h1, h2]
  · have h1 : (Notif.mark_single_read store nid uid).1 =
        (Notif.updateMarkRead store nid uid).1 := by
      rw [Notif.mark_single_read]
      split <;> rfl
    rw [h1, Notif.updateMarkRead_fst]
    exact Notif.updateMarkRead_other_users store nid uid

/-- C10, witness: the store holds only record 1 of user 7; caller 8 asking to
mark record 1 read gets HTTP 404 and the store is untouched. -/
theorem mark_single_read_scoped_witness :
    Notif.mark_single_read [⟨1, 7, false⟩] 1 8 = ([⟨1, 7, false⟩], Except.error 404) :=
  (mark_single_read_scoped [⟨1, 7, false⟩] 1 8).1 (by decide)

/-- C8. `mark_single_read` re-applied to an already-read record raises
HTTP 404: the first call on the unread record `(id 1, user 7)` updates it and
answers `{"updated": 1}`, but the second call matches a row that MySQL does
not count as changed, so `cur.rowcount == 0` and the endpoint raises
`HTTPException(404, "Notification not found")` although the record exists and
is owned by the caller. The store (and hence the unread count) is unchanged
by the second call. -/
theorem mark_single_read_repeat_raises_404 :
    Notif.mark_single_read [⟨1, 7, false⟩] 1 7 = ([⟨1, 7, true⟩], Except.ok 1) ∧
    Notif.mark_single_read [⟨1, 7, true⟩] 1 7 = ([⟨1, 7, true⟩], Except.error 404) ∧
    Notif.unreadCount [⟨1, 7, true⟩] 7 = 0 :=
  ⟨rfl, rfl, rfl⟩

/-- `noEmptyB` and `NoEmpty` agree. -/
theorem WSM.noEmptyB_iff (r : WSM.Registry) :
    WSM.noEmptyB r = true ↔ WSM.NoEmpty r := by
  simp [WSM.noEmptyB, WSM.NoEmpty, List.all_eq_true]

/-- `connect` never creates an empty connection set. -/
theorem WSM.noEmpty_connect (uid : Nat) (c : WSM.Conn) :
    ∀ (r : WSM.Registry), WSM.NoEmpty r → WSM.NoEmpty (WSM.connect r uid c) := by
  intro r
  induction r with
  | nil =>
    intro _ p hp
    simp [WSM.connect] at hp
    simp [hp]
  | cons q rest ih =>
    intro h p hp
    obtain ⟨u, s⟩ := q
    rw [WSM.connect] at hp
    by_cases hu : u = uid
    · rw [if_pos hu] at hp
      rcases List.mem_cons.mp hp with hp | hp
      · subst hp
        by_cases hc : c ∈ s
        · simpa [hc] using h (u, s) (List.mem_cons_self _ _)
        · simp [hc]
      · exact h p (List.mem_cons_of_mem _ hp)
    · rw [if_neg hu] at hp
      rcases List.mem_cons.mp hp with hp | hp
      · subst hp
        exact h (u, s) (List.mem_cons_self _ _)
      · exact ih (fun q hq => h q (List.mem_cons_of_mem _ hq)) p hp

/-- `disconnect` never creates an empty connection set. -/
theorem WSM.noEmpty_disconnect (r : WSM.Registry) (uid : Nat)
    (h : WSM.NoEmpty r) : WSM.NoEmpty (WSM.disconnect r uid) := by
  intro p hp
  exact h p (List.mem_of_mem_filter hp)

/-- `disconnect_socket` never creates an empty connection set: when removing
the socket would leave the set empty, the whole entry is dropped. -/
theorem WSM.noEmpty_disconnect_socket (uid : Nat) (ws : WSM.Conn) :
    ∀ (r : WSM.Registry), WSM.NoEmpty r →
      WSM.NoEmpty (WSM.disconnect_socket r uid ws) := by
  intro r
  induction r with
  | nil =>
    intro _ p hp
    simp [WSM.disconnect_socket] at hp
  | cons q rest ih =>
    intro h p hp
    obtain ⟨u, s⟩ := q
    rw [WSM.disconnect_socket] at hp
    by_cases hu : u = uid
    · rw [if_pos hu] at hp
      by_cases hw : ws ∈ s
      · rw [if_pos hw] at hp
        by_cases he : s.erase ws = []
        · rw [if_pos he] at hp
          exact h p (List.mem_cons_of_mem _ hp)
        · rw [if_neg he] at hp
          rcases List.mem_cons.mp hp with hp | hp
          · subst hp
            exact he
          · exact h p (List.mem_cons_of_mem _ hp)
      · rw [if_neg hw] at hp
        rcases List.mem_cons.mp hp with hp | hp
        · subst hp
          exact h (u, s) (List.mem_cons_self _ _)
        · exact h p (List.mem_cons_of_mem _ hp)
    · rw [if_neg hu] at hp
      rcases List.mem_cons.mp hp with hp | hp
      · subst hp
        exact h (u, s) (List.mem_cons_self _ _)
      · exact ih (fun q hq => h q (List.mem_cons_of_mem _ hq)) p hp

/-- Pruning dead sockets never creates an empty connection set. -/
theorem WSM.noEmpty_pruneDead (uid : Nat) (dead : List WSM.Conn) :
    ∀ (r : WSM.Registry), WSM.NoEmpty r →
      WSM.NoEmpty (WSM.pruneDead r uid dead) := by
  intro r
  induction r with
  | nil =>
    intro _ p hp
    simp [WSM.pruneDead] at hp
  | cons q rest ih =>
    intro h p hp
    obtain ⟨u, s⟩ := q
    rw [WSM.pruneDead] at hp
    by_cases hu : u = uid
    · rw [if_pos hu] at hp
      by_cases hf : s.filter (fun c => decide (c ∉ dead)) = []
      · rw [if_pos hf] at hp
        exact h p (List.mem_cons_of_mem _ hp)
      · rw [if_neg hf] at hp
        rcases List.mem_cons.mp hp with hp | hp
        · subst hp
          exact hf
        · exact h p (List.mem_cons_of_mem _ hp)
    · rw [if_neg hu] at hp
      rcases List.mem_cons.mp hp with hp | hp
      · subst hp
        exact h (u, s) (List.mem_cons_self _ _)
      · exact ih (fun q hq => h q (List.mem_cons_of_mem _ hq)) p hp

/-- `send_personal_message` never creates an empty connection set. -/
theorem WSM.noEmpty_send (r : WSM.Registry) (uid : Nat)
    (h : WSM.NoEmpty r) : WSM.NoEmpty ((WSM.send_personal_message r uid).reg) := by
  by_cases h0 : WSM.lookup r uid = []
  · simpa [WSM.send_personal_message, h0] using h
  · by_cases h1 : (WSM.lookup r uid).filter (fun c => !WSM.healthy c) = []
    · simpa [WSM.send_personal_message, h0, h1] using h
    · simpa [WSM.send_personal_message, h0, h1] using
        WSM.noEmpty_pruneDead uid _ r h

/-- The broadcast loop never creates an empty connection set. -/
theorem WSM.noEmpty_broadcastGo (snap : List (Nat × List WSM.Conn)) :
    ∀ (r : WSM.Registry), WSM.NoEmpty r →
      WSM.NoEmpty ((WSM.broadcastGo snap r).1) := by
  induction snap with
  | nil =>
    intro r h
    simpa [WSM.broadcastGo] using h
  | cons q rest ih =>
    intro r h
    obtain ⟨uid, sockets⟩ := q
    rw [WSM.broadcastGo]
    apply ih
    rw [WSM.broadcastStep]
    by_cases h1 : sockets.filter (fun c => !WSM.healthy c) = []
    · simpa [h1] using h
    · simpa [h1] using WSM.noEmpty_pruneDead uid _ r h

/-- Every single manager operation preserves the no-empty-entry invariant. -/
theorem WSM.noEmpty_step (r : WSM.Registry) (op : WSM.Op)
    (h : WSM.NoEmpty r) : WSM.NoEmpty (WSM.step r op) := by
  cases op with
  | register uid c => exact WSM.noEmpty_connect uid c r h
  | unregister uid c => exact WSM.noEmpty_disconnect_socket uid c r h
  | unregisterAll uid => exact WSM.noEmpty_disconnect r uid h
  | send uid => exact WSM.noEmpty_send r uid h
  | bcast => exact WSM.noEmpty_broadcastGo r r h

/-- Replaying any operation suffix preserves the no-empty-entry invariant. -/
theorem WSM.noEmpty_foldl (ops : List WSM.Op) :
    ∀ (r : WSM.Registry), WSM.NoEmpty r →
      WSM.NoEmpty (ops.foldl WSM.step r) := by
  induction ops with
  | nil => intro r h; exact h
  | cons op rest ih =>
    intro r h
    exact ih _ (WSM.noEmpty_step r op h)

/-- C7. After any sequence of register / unregister / unregister-all / send /
broadcast operations replayed from the initial empty registry, no user entry
with an empty connection set exists: a user with zero connections is absent
from the mapping. -/
theorem registry_no_empty_entries (ops : List WSM.Op) :
    WSM.noEmptyB (WSM.run ops) = true := by
  rw [WSM.noEmptyB_iff]
  exact WSM.noEmpty_foldl ops [] (fun p hp => absurd hp (List.not_mem_nil p))

/-- The pairs delivered by the broadcast loop depend only on the snapshot:
per-connection failures on one user never remove deliveries of another. -/
theorem WSM.broadcastGo_delivered (snap : List (Nat × List WSM.Conn)) :
    ∀ (r : WSM.Registry), (WSM.broadcastGo snap r).2 = WSM.healthyPairs snap := by
  induction snap with
  | nil =>
    intro r
    simp [WSM.broadcastGo, WSM.healthyPairs]
  | cons q rest ih =>
    intro r
    obtain ⟨uid, sockets⟩ := q
    rw [WSM.broadcastGo]
    simp [WSM.healthyPairs, WSM.broadcastStep, ih]

/-- Delivered plus failed sockets account for every registered socket. -/
theorem WSM.healthyPairs_length (r : WSM.Registry) :
    (WSM.healthyPairs r).length + WSM.failedConns r = WSM.totalConns r := by
  induction r with
  | nil => rfl
  | cons q rest ih =>
    have hl := List.length_eq_length_filter_add (l := q.2) WSM.healthy
    simp only [WSM.healthyPairs, WSM.totalConns, WSM.failedConns,
      List.flatMap_cons, List.map_cons, List.sum_cons, List.length_append,
      List.length_map] at *
    omega

/-- `pruneDead` acts on the (unique) entry of its user and passes over every
entry with a different key. -/
theorem WSM.pruneDead_append (uid : Nat) (s : List WSM.Conn)
    (rest : WSM.Registry) (dead : List WSM.Conn) :
    ∀ (pre : WSM.Registry), (∀ p ∈ pre, p.1 ≠ uid) →
      WSM.pruneDead (pre ++ (uid, s) :: rest) uid dead =
        pre ++
          (if s.filter (fun c => decide (c ∉ dead)) = [] then rest
           else (uid, s.filter (fun c => decide (c ∉ dead))) :: rest) := by
  intro pre
  induction pre with
  | nil =>
    intro _
    rw [List.nil_append, WSM.pruneDead, if_pos rfl, List.nil_append]
  | cons q pre ih =>
    intro h
    obtain ⟨u, t⟩ := q
    have hu : u ≠ uid := h (u, t) (List.mem_cons_self _ _)
    rw [List.cons_append, WSM.pruneDead, if_neg hu,
      ih (fun p hp => h p (List.mem_cons_of_mem _ hp)), List.cons_append]

/-- Discarding the sockets collected as dead keeps exactly the healthy ones. -/
theorem WSM.filter_not_dead (s : List WSM.Conn) :
    s.filter (fun c => decide (c ∉ s.filter (fun c => !WSM.healthy c))) =
      s.filter WSM.healthy := by
  refine List.filter_congr ?_
  intro c hc
  cases hh : WSM.healthy c <;> simp [List.mem_filter, hc, hh]

/-- One pass of the broadcast loop over its own head entry: the user's entry
is replaced by its healthy sockets, or dropped if none survive, while
entries with other keys are untouched. -/
theorem WSM.broadcastStep_append (uid : Nat) (s : List WSM.Conn)
    (rest pre : WSM.Registry) (h : ∀ p ∈ pre, p.1 ≠ uid) (hs : s ≠ []) :
    (WSM.broadcastStep (pre ++ (uid, s) :: rest) uid s).1 =
      pre ++
        ((if s.filter WSM.healthy = [] then [] else [(uid, s.filter WSM.healthy)]) ++
          rest) := by
  rw [WSM.broadcastStep]
  by_cases hd : s.filter (fun c => !WSM.healthy c) = []
  · have hall : ∀ c ∈ s, WSM.healthy c = true := by
      intro c hc
      have := List.filter_eq_nil_iff.mp hd c hc
      cases hh : WSM.healthy c
      · exact absurd (by simp [hh]) this
      · rfl
    have hself : s.filter WSM.healthy = s := List.filter_eq_self.mpr hall
    simp only [hd, if_pos rfl, hself, if_neg hs]
    rfl
  · simp only [if_neg hd]
    rw [WSM.pruneDead_append uid s rest _ pre h, WSM.filter_not_dead]
    by_cases hf : s.filter WSM.healthy = []
    · simp [hf]
    · simp [hf]

/-- `pruneAll` unfolded one entry at a time. -/
theorem WSM.pruneAll_cons (uid : Nat) (s : List WSM.Conn) (rest : WSM.Registry) :
    WSM.pruneAll ((uid, s) :: rest) =
      (if s.filter WSM.healthy = [] then [] else [(uid, s.filter WSM.healthy)]) ++
        WSM.pruneAll rest := by
  by_cases hf : s.filter WSM.healthy = []
  · rw [if_pos hf, List.nil_append, WSM.pruneAll,
      List.filterMap_cons_none (by exact if_pos hf)]
    rfl
  · rw [if_neg hf, WSM.pruneAll,
      List.filterMap_cons_some (by exact if_neg hf),
      List.singleton_append]
    rfl

/-- The broadcast loop, run on a live registry that extends its snapshot by
already-processed entries with other keys, prunes each snapshot entry down to
its healthy sockets. -/
theorem WSM.broadcastGo_reg (snap : List (Nat × List WSM.Conn)) :
    ∀ (pre : WSM.Registry), (WSM.keys snap).Nodup → (∀ p ∈ snap, p.2 ≠ []) →
      (∀ p ∈ pre, p.1 ∉ WSM.keys snap) →
      (WSM.broadcastGo snap (pre ++ snap)).1 = pre ++ WSM.pruneAll snap := by
  induction snap with
  | nil =>
    intro pre _ _ _
    simp [WSM.broadcastGo, WSM.pruneAll]
  | cons q rest ih =>
    intro pre hnd hne hpre
    obtain ⟨uid, s⟩ := q
    have hkey : WSM.keys ((uid, s) :: rest) = uid :: WSM.keys rest := rfl
    have huid : uid ∉ WSM.keys rest := by
      have := hnd
      rw [hkey] at this
      exact (List.nodup_cons.mp this).1
    have hnd' : (WSM.keys rest).Nodup := by
      have := hnd
      rw [hkey] at this
      exact (List.nodup_cons.mp this).2
    rw [WSM.broadcastGo]
    have hstep := WSM.broadcastStep_append uid s rest pre
      (fun p hp => by
        have := hpre p hp
        rw [hkey] at this
        exact fun he => this (he ▸ List.mem_cons_self _ _))
      (hne (uid, s) (List.mem_cons_self _ _))
    simp only [hstep]
    have hassoc :
        pre ++
            ((if s.filter WSM.healthy = [] then [] else [(uid, s.filter WSM.healthy)]) ++
              rest) =
          (pre ++
              (if s.filter WSM.healthy = [] then []
               else [(uid, s.filter WSM.healthy)])) ++
            rest := by
      rw [List.append_assoc]
    rw [hassoc]
    rw [ih _ hnd' (fun p hp => hne p (List.mem_cons_of_mem _ hp)) ?hpre]
    · rw [WSM.pruneAll_cons, List.append_assoc]
    case hpre =>
      intro p hp
      rcases List.mem_append.mp hp with hp | hp
      · intro hc
        have := hpre p hp
        rw [hkey] at this
        exact this (List.mem_cons_of_mem _ hc)
      · by_cases hf : s.filter WSM.healthy = []
        · rw [if_pos hf] at hp
          exact absurd hp (List.not_mem_nil p)
        · rw [if_neg hf] at hp
          have hp' : p = (uid, s.filter WSM.healthy) := List.mem_singleton.mp hp
          rw [hp']
          exact huid

/-- After pruning, looking the user up yields exactly the sockets that
survived (needs unique keys: the dropped entry must be the only one). -/
theorem WSM.lookup_pruneDead (uid : Nat) (dead : List WSM.Conn) :
    ∀ (r : WSM.Registry), (WSM.keys r).Nodup →
      WSM.lookup (WSM.pruneDead r uid dead) uid =
        (WSM.lookup r uid).filter (fun c => decide (c ∉ dead)) := by
  intro r
  induction r with
  | nil =>
    intro _
    simp [WSM.pruneDead, WSM.lookup]
  | cons q rest ih =>
    intro hnd
    obtain ⟨u, s⟩ := q
    have hnd' : (WSM.keys rest).Nodup := (List.nodup_cons.mp hnd).2
    rw [WSM.pruneDead]
    by_cases hu : u = uid
    · rw [if_pos hu]
      have hrest : WSM.lookup rest uid = [] := by
        have hu' : uid ∉ WSM.keys rest := hu ▸ (List.nodup_cons.mp hnd).1
        clear ih hnd hnd'
        induction rest with
        | nil => rfl
        | cons q2 rest2 ih2 =>
          obtain ⟨u2, s2⟩ := q2
          rw [WSM.lookup]
          have : u2 ≠ uid := fun he =>
            hu' (he ▸ List.mem_cons_self u2 (WSM.keys rest2))
          rw [if_neg this]
          exact ih2 (fun hc => hu' (List.mem_cons_of_mem _ hc))
      by_cases hf : s.filter (fun c => decide (c ∉ dead)) = []
      · rw [if_pos hf, hrest, WSM.lookup, if_pos hu, hf]
      · rw [if_neg hf, WSM.lookup, if_pos hu, WSM.lookup, if_pos hu]
    · rw [if_neg hu, WSM.lookup, if_neg hu, WSM.lookup, if_neg hu]
      exact ih hnd'

/-- C4. Per-connection failure isolation and pruning, in full: a broadcast
over a well-formed registry delivers to exactly the healthy `(user, socket)`
pairs — so with `N×M` registered sockets of which `k` would fail, exactly
`N×M − k` messages are delivered — and afterwards the registry retains
exactly the healthy sockets, with fully-failed users dropped; likewise
`send_personal_message` delivers to exactly the user's healthy sockets and
prunes the failed ones. Both embedded operations are total functions: the
per-socket `try/except` of the source means no failure reaches the caller. -/
theorem broadcast_failure_isolation (r : WSM.Registry)
    (hnd : (WSM.keys r).Nodup) (hne : WSM.NoEmpty r) :
    (WSM.broadcast r).2 = WSM.healthyPairs r ∧
    (WSM.broadcast r).2.length + WSM.failedConns r = WSM.totalConns r ∧
    (WSM.broadcast r).1 = WSM.pruneAll r ∧
    ∀ uid, (WSM.send_personal_message r uid).delivered =
        (WSM.lookup r uid).filter WSM.healthy ∧
      WSM.lookup (WSM.send_personal_message r uid).reg uid =
        (WSM.lookup r uid).filter WSM.healthy := by
  refine ⟨WSM.broadcastGo_delivered r r, ?_, ?_, ?_⟩
  · show (WSM.broadcastGo r r).2.length + WSM.failedConns r = WSM.totalConns r
    rw [WSM.broadcastGo_delivered r r]
    exact WSM.healthyPairs_length r
  · have := WSM.broadcastGo_reg r [] hnd hne (by intro p hp; simp at hp)
    simpa [WSM.broadcast] using this
  · intro uid
    constructor
    · by_cases h0 : WSM.lookup r uid = [] <;>
        simp [WSM.send_personal_message, h0]
    · by_cases h0 : WSM.lookup r uid = []
      · simp [WSM.send_personal_message, h0]
      · by_cases h1 : (WSM.lookup r uid).filter (fun c => !WSM.healthy c) = []
        · have hall : ∀ c ∈ WSM.lookup r uid, WSM.healthy c = true := by
            intro c hc
            have := List.filter_eq_nil_iff.mp h1 c hc
            cases hh : WSM.healthy c
            · exact absurd (by simp [hh]) this
            · rfl
          simp [WSM.send_personal_message, h0, h1,
            List.filter_eq_self.mpr hall]
        · simp only [WSM.send_personal_message, if_neg h0, if_neg h1]
          rw [WSM.lookup_pruneDead uid _ r hnd, WSM.filter_not_dead]

/-- C4, witness: two users with two sockets each, one socket failing its
send; the broadcast delivers three messages (4 − 1) and prunes the failed
socket. -/
theorem broadcast_failure_isolation_witness :
    (WSM.broadcast [(1, [⟨1, true, true⟩, ⟨2, true, true⟩]),
        (2, [⟨3, true, true⟩, ⟨4, true, false⟩])]).2.length +
      WSM.failedConns [(1, [⟨1, true, true⟩, ⟨2, true, true⟩]),
        (2, [⟨3, true, true⟩, ⟨4, true, false⟩])] =
      WSM.totalConns [(1, [⟨1, true, true⟩, ⟨2, true, true⟩]),
        (2, [⟨3, true, true⟩, ⟨4, true, false⟩])] :=
  (broadcast_failure_isolation
    [(1, [⟨1, true, true⟩, ⟨2, true, true⟩]),
     (2, [⟨3, true, true⟩, ⟨4, true, false⟩])]
    (by decide) (by decide)).2.1

/-- C9. The `except` branch of `websocket_endpoint` calls
`manager.disconnect(user_id)` without `await`, so when user 7's read loop
raises while the registry holds their connection, the registry is unchanged
and the connection is still registered afterwards — whereas an awaited
`disconnect` would have removed the entry entirely. -/
theorem websocket_error_leaves_connection_registered :
    websocket_endpoint_on_error [(7, [⟨1, true, true⟩])] 7 = [(7, [⟨1, true, true⟩])] ∧
    WSM.lookup (websocket_endpoint_on_error [(7, [⟨1, true, true⟩])] 7) 7 =
      [⟨1, true, true⟩] ∧
    WSM.disconnect [(7, [⟨1, true, true⟩])] 7 = [] :=
  ⟨rfl, rfl, rfl⟩

/-- Appending a trace whose pushes are all covered keeps the
push-after-insert property. -/
theorem Dispatch.pushesAfterInsert_append (evs2 : List Dispatch.Ev)
    (h2 : ∀ seen, Dispatch.pushesAfterInsert evs2 seen = true) :
    ∀ (evs1 : List Dispatch.Ev) (seen : List Nat),
      Dispatch.pushesAfterInsert evs1 seen = true →
      Dispatch.pushesAfterInsert (evs1 ++ evs2) seen = true := by
  intro evs1
  induction evs1 with
  | nil =>
    intro seen _
    simpa using h2 seen
  | cons e rest ih =>
    intro seen h1
    cases e with
    | insert rid uid =>
      rw [Dispatch.pushesAfterInsert] at h1
      rw [List.cons_append, Dispatch.pushesAfterInsert]
      exact ih _ h1
    | push uid d =>
      rw [Dispatch.pushesAfterInsert, Bool.and_eq_true] at h1
      rw [List.cons_append, Dispatch.pushesAfterInsert, Bool.and_eq_true]
      exact ⟨h1.1, ih _ h1.2⟩
    | commit =>
      rw [Dispatch.pushesAfterInsert] at h1
      rw [List.cons_append, Dispatch.pushesAfterInsert]
      exact ih _ h1
    | rollback =>
      rw [Dispatch.pushesAfterInsert] at h1
      rw [List.cons_append, Dispatch.pushesAfterInsert]
      exact ih _ h1

/-- In the recipients loop every push is immediately preceded by the INSERT
for the same user, so the trace satisfies push-after-insert from any start. -/
theorem Dispatch.notifyEvents_pushes (recips : List Nat) :
    ∀ (reg : WSM.Registry) (iok : Nat → Bool) (nid : Nat) (seen : List Nat),
      Dispatch.pushesAfterInsert
        (Dispatch.notifyEvents reg recips iok nid).2.1 seen = true := by
  induction recips with
  | nil => intro reg iok nid seen; rfl
  | cons uid rest ih =>
    intro reg iok nid seen
    by_cases hk : iok uid = true
    · simp only [Dispatch.notifyEvents, if_pos hk]
      rw [Dispatch.pushesAfterInsert, Dispatch.pushesAfterInsert, Bool.and_eq_true]
      exact ⟨by simp, ih _ _ _ _⟩
    · simp only [Dispatch.notifyEvents, if_neg hk]
      rfl

/-- Same for either loop of the sales scan. -/
theorem Dispatch.salesLoop_pushes (leads : List Dispatch.Lead) :
    ∀ (reg : WSM.Registry) (iok : Nat → Bool) (nid : Nat) (seen : List Nat),
      Dispatch.pushesAfterInsert
        (Dispatch.salesLoop reg leads iok nid).2.1 seen = true := by
  induction leads with
  | nil => intro reg iok nid seen; rfl
  | cons l rest ih =>
    intro reg iok nid seen
    cases ho : l.owner with
    | none =>
      simp only [Dispatch.salesLoop, ho]
      exact ih _ _ _ _
    | some uid =>
      by_cases hk : iok uid = true
      · simp only [Dispatch.salesLoop, ho, if_pos hk]
        rw [Dispatch.pushesAfterInsert, Dispatch.pushesAfterInsert, Bool.and_eq_true]
        exact ⟨by simp, ih _ _ _ _⟩
      · simp only [Dispatch.salesLoop, ho, if_neg hk]
        rfl

/-- C1, amended. What the two dispatcher endpoints actually guarantee about
ordering: every push is preceded by the INSERT of that same user's record in
the open transaction, and the run either commits — with the commit as the
very last event, i.e. after every push — and reports success, or reports
HTTP 500 with a rollback as the last event (so no insert or push happens
after a failure). Durability at the moment of the push, and the absence of
pushes on a failing run, are exactly what is NOT guaranteed (see the
counterexample). -/
theorem notify_insert_precedes_push (reg : WSM.Registry) (recips : List Nat)
    (iok : Nat → Bool) (nid : Nat) (due stale : List Dispatch.Lead) :
    Dispatch.pushesAfterInsert
        (Dispatch.create_full_installation_notify reg recips iok nid).2.1 [] = true ∧
    ((Dispatch.create_full_installation_notify reg recips iok nid).2.2 = Except.ok "ok" ∧
        (Dispatch.create_full_installation_notify reg recips iok nid).2.1.getLast? =
          some Dispatch.Ev.commit ∨
      (Dispatch.create_full_installation_notify reg recips iok nid).2.2 = Except.error 500 ∧
        (Dispatch.create_full_installation_notify reg recips iok nid).2.1.getLast? =
          some Dispatch.Ev.rollback) ∧
    Dispatch.pushesAfterInsert
        (Dispatch.run_sales_notifications reg due stale iok nid).2.1 [] = true ∧
    ((Dispatch.run_sales_notifications reg due stale iok nid).2.2 =
          Except.ok { status := "ok", followup := due.length, stale := stale.length } ∧
        (Dispatch.run_sales_notifications reg due stale iok nid).2.1.getLast? =
          some Dispatch.Ev.commit ∨
      (Dispatch.run_sales_notifications reg due stale iok nid).2.2 = Except.error 500 ∧
        (Dispatch.run_sales_notifications reg due stale iok nid).2.1.getLast? =
          some Dispatch.Ev.rollback) := by
  refine ⟨?_, ?_, ?_, ?_⟩
  · by_cases hok : (Dispatch.notifyEvents reg recips iok nid).2.2 = true
    · simp only [Dispatch.create_full_installation_notify, if_pos hok]
      exact Dispatch.pushesAfterInsert_append [Dispatch.Ev.commit] (fun _ => rfl) _ _
        (Dispatch.notifyEvents_pushes recips reg iok nid [])
    · simp only [Dispatch.create_full_installation_notify, if_neg hok]
      exact Dispatch.pushesAfterInsert_append [Dispatch.Ev.rollback] (fun _ => rfl) _ _
        (Dispatch.notifyEvents_pushes recips reg iok nid [])
  · by_cases hok : (Dispatch.notifyEvents reg recips iok nid).2.2 = true
    · left
      constructor
      · simp [Dispatch.create_full_installation_notify, if_pos hok]
      · simp only [Dispatch.create_full_installation_notify, if_pos hok]
        exact List.getLast?_concat _
    · right
      constructor
      · simp [Dispatch.create_full_installation_notify, if_neg hok]
      · simp only [Dispatch.create_full_installation_notify, if_neg hok]
        exact List.getLast?_concat _
  · by_cases h1 : (Dispatch.salesLoop reg due iok nid).2.2.1 = true
    · by_cases h2 : (Dispatch.salesLoop (Dispatch.salesLoop reg due iok nid).1 stale iok
          (Dispatch.salesLoop reg due iok nid).2.2.2).2.2.1 = true
      · simp only [Dispatch.run_sales_notifications, if_pos h1, if_pos h2]
        exact Dispatch.pushesAfterInsert_append [Dispatch.Ev.commit] (fun _ => rfl) _ []
          (Dispatch.pushesAfterInsert_append _
            (fun seen => Dispatch.salesLoop_pushes stale
              (Dispatch.salesLoop reg due iok nid).1 iok
              (Dispatch.salesLoop reg due iok nid).2.2.2 seen)
            _ [] (Dispatch.salesLoop_pushes due reg iok nid []))
      · simp only [Dispatch.run_sales_notifications, if_pos h1, if_neg h2]
        exact Dispatch.pushesAfterInsert_append [Dispatch.Ev.rollback] (fun _ => rfl) _ []
          (Dispatch.pushesAfterInsert_append _
            (fun seen => Dispatch.salesLoop_pushes stale
              (Dispatch.salesLoop reg due iok nid).1 iok
              (Dispatch.salesLoop reg due iok nid).2.2.2 seen)
            _ [] (Dispatch.salesLoop_pushes due reg iok nid []))
    · simp only [Dispatch.run_sales_notifications, if_neg h1]
      exact Dispatch.pushesAfterInsert_append [Dispatch.Ev.rollback] (fun _ => rfl) _ _
        (Dispatch.salesLoop_pushes due reg iok nid [])
  · by_cases h1 : (Dispatch.salesLoop reg due iok nid).2.2.1 = true
    · by_cases h2 : (Dispatch.salesLoop (Dispatch.salesLoop reg due iok nid).1 stale iok
          (Dispatch.salesLoop reg due iok nid).2.2.2).2.2.1 = true
      · left
        constructor
        · simp [Dispatch.run_sales_notifications, if_pos h1, if_pos h2]
        · simp only [Dispatch.run_sales_notifications, if_pos h1, if_pos h2]
          exact List.getLast?_concat _
      · right
        constructor
        · simp [Dispatch.run_sales_notifications, if_pos h1, if_neg h2]
        · simp only [Dispatch.run_sales_notifications, if_pos h1, if_neg h2]
          exact List.getLast?_concat _
    · right
      constructor
      · simp [Dispatch.run_sales_notifications, if_neg h1]
      · simp only [Dispatch.run_sales_notifications, if_neg h1]
        exact List.getLast?_concat _

/-- `insertedPairs` drops a leading insert into the head pair. -/
theorem Dispatch.insertedPairs_insert (rid uid : Nat) (evs : List Dispatch.Ev) :
    Dispatch.insertedPairs (Dispatch.Ev.insert rid uid :: evs) =
      (rid, uid) :: Dispatch.insertedPairs evs := rfl

/-- `insertedPairs` ignores a leading push. -/
theorem Dispatch.insertedPairs_push (uid : Nat) (d : Bool) (evs : List Dispatch.Ev) :
    Dispatch.insertedPairs (Dispatch.Ev.push uid d :: evs) =
      Dispatch.insertedPairs evs := by
  cases d <;> rfl

/-- `insertedPairs` distributes over trace concatenation. -/
theorem Dispatch.insertedPairs_append (a b : List Dispatch.Ev) :
    Dispatch.insertedPairs (a ++ b) =
      Dispatch.insertedPairs a ++ Dispatch.insertedPairs b :=
  List.filterMap_append a b _

/-- `successfulPushes` ignores a leading insert. -/
theorem Dispatch.successfulPushes_insert (rid uid : Nat) (evs : List Dispatch.Ev) :
    Dispatch.successfulPushes (Dispatch.Ev.insert rid uid :: evs) =
      Dispatch.successfulPushes evs := rfl

/-- `successfulPushes` keeps a leading push exactly when it was delivered. -/
theorem Dispatch.successfulPushes_push (uid : Nat) (d : Bool) (evs : List Dispatch.Ev) :
    Dispatch.successfulPushes (Dispatch.Ev.push uid d :: evs) =
      (if d = true then uid :: Dispatch.successfulPushes evs
       else Dispatch.successfulPushes evs) := by
  cases d <;> rfl

/-- Appending the final commit does not change the pushes of a trace. -/
theorem Dispatch.successfulPushes_concat_commit (evs : List Dispatch.Ev) :
    Dispatch.successfulPushes (evs ++ [Dispatch.Ev.commit]) =
      Dispatch.successfulPushes evs := by
  rw [Dispatch.successfulPushes, List.filterMap_append]
  simp [Dispatch.successfulPushes]

/-- A committed trace's durable rows are exactly its executed INSERTs. -/
theorem Dispatch.durableStore_concat_commit (evs : List Dispatch.Ev) :
    Dispatch.durableStore (evs ++ [Dispatch.Ev.commit]) =
      Dispatch.insertedPairs evs := by
  rw [Dispatch.durableStore, if_pos (by simp)]
  rw [Dispatch.insertedPairs_append]
  simp [Dispatch.insertedPairs]

/-- A rolled-back trace leaves no durable rows. -/
theorem Dispatch.durableStore_concat_rollback (evs : List Dispatch.Ev)
    (h : Dispatch.Ev.commit ∉ evs) :
    Dispatch.durableStore (evs ++ [Dispatch.Ev.rollback]) = [] := by
  have hm : Dispatch.Ev.commit ∉ evs ++ [Dispatch.Ev.rollback] := by
    simp [List.mem_append, h]
  rw [Dispatch.durableStore, if_neg hm]

/-- The recipients loop emits only inserts and pushes — never a commit. -/
theorem Dispatch.commit_not_mem_notifyEvents (recips : List Nat) :
    ∀ (reg : WSM.Registry) (iok : Nat → Bool) (nid : Nat),
      Dispatch.Ev.commit ∉ (Dispatch.notifyEvents reg recips iok nid).2.1 := by
  induction recips with
  | nil => intro reg iok nid; simp [Dispatch.notifyEvents]
  | cons uid rest ih =>
    intro reg iok nid
    by_cases hk : iok uid = true
    · simp only [Dispatch.notifyEvents, if_pos hk, List.mem_cons]
      push_neg
      exact ⟨by simp, by simp, ih _ _ _⟩
    · simp [Dispatch.notifyEvents, if_neg hk]

/-- A sales scan loop emits only inserts and pushes — never a commit. -/
theorem Dispatch.commit_not_mem_salesLoop (leads : List Dispatch.Lead) :
    ∀ (reg : WSM.Registry) (iok : Nat → Bool) (nid : Nat),
      Dispatch.Ev.commit ∉ (Dispatch.salesLoop reg leads iok nid).2.1 := by
  induction leads with
  | nil => intro reg iok nid; simp [Dispatch.salesLoop]
  | cons l rest ih =>
    intro reg iok nid
    cases ho : l.owner with
    | none =>
      simp only [Dispatch.salesLoop, ho]
      exact ih _ _ _
    | some uid =>
      by_cases hk : iok uid = true
      · simp only [Dispatch.salesLoop, ho, if_pos hk, List.mem_cons]
        push_neg
        exact ⟨by simp, by simp, ih _ _ _⟩
      · simp [Dispatch.salesLoop, ho, if_neg hk]

/-- The INSERTs executed by the recipients loop, and whether it finishes, do
not depend on the registry: push outcomes never influence persistence. -/
theorem Dispatch.notifyEvents_indep (recips : List Nat) :
    ∀ (reg reg' : WSM.Registry) (iok : Nat → Bool) (nid : Nat),
      Dispatch.insertedPairs (Dispatch.notifyEvents reg recips iok nid).2.1 =
        Dispatch.insertedPairs (Dispatch.notifyEvents reg' recips iok nid).2.1 ∧
      (Dispatch.notifyEvents reg recips iok nid).2.2 =
        (Dispatch.notifyEvents reg' recips iok nid).2.2 := by
  induction recips with
  | nil => intro reg reg' iok nid; exact ⟨rfl, rfl⟩
  | cons uid rest ih =>
    intro reg reg' iok nid
    by_cases hk : iok uid = true
    · simp only [Dispatch.notifyEvents, if_pos hk]
      have h := ih (WSM.send_personal_message reg uid).reg
        (WSM.send_personal_message reg' uid).reg iok (nid + 1)
      constructor
      · simp only [Dispatch.insertedPairs_insert, Dispatch.insertedPairs_push, h.1]
      · exact h.2
    · simp only [Dispatch.notifyEvents, if_neg hk]
      exact ⟨by trivial, by trivial⟩

/-- Same independence for a sales scan loop, including the id counter. -/
theorem Dispatch.salesLoop_indep (leads : List Dispatch.Lead) :
    ∀ (reg reg' : WSM.Registry) (iok : Nat → Bool) (nid : Nat),
      Dispatch.insertedPairs (Dispatch.salesLoop reg leads iok nid).2.1 =
        Dispatch.insertedPairs (Dispatch.salesLoop reg' leads iok nid).2.1 ∧
      (Dispatch.salesLoop reg leads iok nid).2.2.1 =
        (Dispatch.salesLoop reg' leads iok nid).2.2.1 ∧
      (Dispatch.salesLoop reg leads iok nid).2.2.2 =
        (Dispatch.salesLoop reg' leads iok nid).2.2.2 := by
  induction leads with
  | nil => intro reg reg' iok nid; exact ⟨rfl, rfl, rfl⟩
  | cons l rest ih =>
    intro reg reg' iok nid
    cases ho : l.owner with
    | none =>
      simp only [Dispatch.salesLoop, ho]
      exact ih reg reg' iok nid
    | some uid =>
      by_cases hk : iok uid = true
      · simp only [Dispatch.salesLoop, ho, if_pos hk]
        have h := ih (WSM.send_personal_message reg uid).reg
          (WSM.send_personal_message reg' uid).reg iok (nid + 1)
        refine ⟨?_, h.2.1, h.2.2⟩
        simp only [Dispatch.insertedPairs_insert, Dispatch.insertedPairs_push, h.1]
      · simp only [Dispatch.salesLoop, ho, if_neg hk]
        exact ⟨by trivial, by trivial, by trivial⟩

/-- On a finished recipients loop the inserted rows' users are exactly the
recipients, in order. -/
theorem Dispatch.notifyEvents_inserted_uids (recips : List Nat) :
    ∀ (reg : WSM.Registry) (iok : Nat → Bool) (nid : Nat),
      (Dispatch.notifyEvents reg recips iok nid).2.2 = true →
      (Dispatch.insertedPairs (Dispatch.notifyEvents reg recips iok nid).2.1).map
        Prod.snd = recips := by
  induction recips with
  | nil => intro reg iok nid _; rfl
  | cons uid rest ih =>
    intro reg iok nid hok
    by_cases hk : iok uid = true
    · simp only [Dispatch.notifyEvents, if_pos hk] at hok ⊢
      simp only [Dispatch.insertedPairs_insert, Dispatch.insertedPairs_push,
        List.map_cons]
      rw [ih _ _ _ hok]
    · simp only [Dispatch.notifyEvents, if_neg hk] at hok
      exact absurd hok (by simp)

/-- Every user that received a push in the recipients loop is a recipient. -/
theorem Dispatch.notifyEvents_pushed_sub (recips : List Nat) :
    ∀ (reg : WSM.Registry) (iok : Nat → Bool) (nid uid : Nat),
      uid ∈ Dispatch.successfulPushes (Dispatch.notifyEvents reg recips iok nid).2.1 →
      uid ∈ recips := by
  induction recips with
  | nil =>
    intro reg iok nid uid h
    simp [Dispatch.notifyEvents, Dispatch.successfulPushes] at h
  | cons u rest ih =>
    intro reg iok nid uid h
    by_cases hk : iok u = true
    · simp only [Dispatch.notifyEvents, if_pos hk,
        Dispatch.successfulPushes_insert, Dispatch.successfulPushes_push] at h
      by_cases hd : decide ((WSM.send_personal_message reg u).delivered ≠ []) = true
      · rw [if_pos hd] at h
        rcases List.mem_cons.mp h with h | h
        · exact h ▸ List.mem_cons_self u rest
        · exact List.mem_cons_of_mem _ (ih _ _ _ _ h)
      · rw [if_neg hd] at h
        exact List.mem_cons_of_mem _ (ih _ _ _ _ h)
    · simp only [Dispatch.notifyEvents, if_neg hk] at h
      simp [Dispatch.successfulPushes] at h

/-- C2, amended. The half of the relationship invariant that the code does
satisfy, plus its committed-path version: (a) the rows durably persisted by
either dispatcher endpoint are identical whatever the registry holds — record
existence never depends on any push succeeding; (b) on a committed
installation run with distinct recipients, every user who received a push
derives from exactly one persisted record. On the rollback path a delivered
push may have no record (see the counterexample), which is the part of the
claim that fails. -/
theorem notify_record_push_relation (reg reg' : WSM.Registry) (recips : List Nat)
    (iok : Nat → Bool) (nid : Nat) (due stale : List Dispatch.Lead) :
    Dispatch.durableStore
        (Dispatch.create_full_installation_notify reg recips iok nid).2.1 =
      Dispatch.durableStore
        (Dispatch.create_full_installation_notify reg' recips iok nid).2.1 ∧
    Dispatch.durableStore
        (Dispatch.run_sales_notifications reg due stale iok nid).2.1 =
      Dispatch.durableStore
        (Dispatch.run_sales_notifications reg' due stale iok nid).2.1 ∧
    (recips.Nodup →
      (Dispatch.create_full_installation_notify reg recips iok nid).2.2 =
        Except.ok "ok" →
      ∀ uid ∈ Dispatch.successfulPushes
          (Dispatch.create_full_installation_notify reg recips iok nid).2.1,
        (Dispatch.durableStore
            (Dispatch.create_full_installation_notify reg recips iok nid).2.1).countP
          (fun p => p.2 == uid) = 1) := by
  obtain ⟨hip, hok⟩ := Dispatch.notifyEvents_indep recips reg reg' iok nid
  refine ⟨?_, ?_, ?_⟩
  · by_cases hk : (Dispatch.notifyEvents reg recips iok nid).2.2 = true
    · have hk' : (Dispatch.notifyEvents reg' recips iok nid).2.2 = true := hok ▸ hk
      simp only [Dispatch.create_full_installation_notify, if_pos hk, if_pos hk']
      rw [Dispatch.durableStore_concat_commit, Dispatch.durableStore_concat_commit, hip]
    · have hk' : ¬(Dispatch.notifyEvents reg' recips iok nid).2.2 = true := by
        rw [← hok]; exact hk
      simp only [Dispatch.create_full_installation_notify, if_neg hk, if_neg hk']
      rw [Dispatch.durableStore_concat_rollback _
          (Dispatch.commit_not_mem_notifyEvents recips reg iok nid),
        Dispatch.durableStore_concat_rollback _
          (Dispatch.commit_not_mem_notifyEvents recips reg' iok nid)]
  · obtain ⟨hip1, hok1, hnid1⟩ := Dispatch.salesLoop_indep due reg reg' iok nid
    by_cases h1 : (Dispatch.salesLoop reg due iok nid).2.2.1 = true
    · have h1' : (Dispatch.salesLoop reg' due iok nid).2.2.1 = true := hok1 ▸ h1
      simp only [Dispatch.run_sales_notifications, if_pos h1, if_pos h1', ← hnid1]
      obtain ⟨hip2, hok2, _⟩ := Dispatch.salesLoop_indep stale
        (Dispatch.salesLoop reg due iok nid).1 (Dispatch.salesLoop reg' due iok nid).1
        iok (Dispatch.salesLoop reg due iok nid).2.2.2
      by_cases h2 : (Dispatch.salesLoop (Dispatch.salesLoop reg due iok nid).1 stale iok
          (Dispatch.salesLoop reg due iok nid).2.2.2).2.2.1 = true
      · have h2' := hok2 ▸ h2
        simp only [if_pos h2, if_pos h2']
        rw [Dispatch.durableStore_concat_commit, Dispatch.durableStore_concat_commit,
          Dispatch.insertedPairs_append, Dispatch.insertedPairs_append, hip1, hip2]
      · have h2' : ¬(Dispatch.salesLoop (Dispatch.salesLoop reg' due iok nid).1 stale iok
            (Dispatch.salesLoop reg due iok nid).2.2.2).2.2.1 = true := by
          rw [← hok2]; exact h2
        simp only [if_neg h2, if_neg h2']
        rw [Dispatch.durableStore_concat_rollback, Dispatch.durableStore_concat_rollback]
        · intro hm
          rcases List.mem_append.mp hm with hm | hm
          · exact Dispatch.commit_not_mem_salesLoop due reg' iok nid hm
          · exact Dispatch.commit_not_mem_salesLoop stale _ iok _ hm
        · intro hm
          rcases List.mem_append.mp hm with hm | hm
          · exact Dispatch.commit_not_mem_salesLoop due reg iok nid hm
          · exact Dispatch.commit_not_mem_salesLoop stale _ iok _ hm
    · have h1' : ¬(Dispatch.salesLoop reg' due iok nid).2.2.1 = true := by
        rw [← hok1]; exact h1
      simp only [Dispatch.run_sales_notifications, if_neg h1, if_neg h1']
      rw [Dispatch.durableStore_concat_rollback _
          (Dispatch.commit_not_mem_salesLoop due reg iok nid),
        Dispatch.durableStore_concat_rollback _
          (Dispatch.commit_not_mem_salesLoop due reg' iok nid)]
  · intro hnd hokk uid hmem
    have hk : (Dispatch.notifyEvents reg recips iok nid).2.2 = true := by
      by_contra hk
      simp only [Dispatch.create_full_installation_notify, if_neg hk] at hokk
      exact absurd hokk (by simp)
    simp only [Dispatch.create_full_installation_notify, if_pos hk] at hmem ⊢
    rw [Dispatch.durableStore_concat_commit]
    rw [Dispatch.successfulPushes_concat_commit] at hmem
    have hin : uid ∈ recips :=
      Dispatch.notifyEvents_pushed_sub recips reg iok nid uid hmem
    have hmap := Dispatch.notifyEvents_inserted_uids recips reg iok nid hk
    have hcp :
        (Dispatch.insertedPairs (Dispatch.notifyEvents reg recips iok nid).2.1).countP
            (fun p => p.2 == uid) =
          ((Dispatch.insertedPairs
              (Dispatch.notifyEvents reg recips iok nid).2.1).map Prod.snd).countP
            (fun x => x == uid) :=
      (List.countP_map (fun x => x == uid) Prod.snd _).symm
    rw [hcp, hmap]
    have hone := List.count_eq_one_of_mem hnd hin
    simpa [List.count] using hone

/-- C2, witness: one online recipient, successful run — the single delivered
push has exactly one persisted record. -/
theorem notify_record_push_relation_witness :
    (Dispatch.durableStore
        (Dispatch.create_full_installation_notify [(1, [⟨1, true, true⟩])] [1]
          (fun _ => true) 10).2.1).countP (fun p => p.2 == 1) = 1 :=
  (notify_record_push_relation [(1, [⟨1, true, true⟩])] [(1, [⟨1, true, true⟩])] [1]
      (fun _ => true) 10 [] []).2.2 (by decide) rfl 1 (by decide)

/-- C5, amended. What the Notify endpoints actually return: the sales run
answers either HTTP 500 or `{"status": "ok", "followup": len(due),
"stale": len(stale)}` — the scan counts, not record identifiers — and the
installation endpoint answers either HTTP 500 or a status object; in both
cases the returned value is independent of the registry, so push outcomes are
not part of the return contract. -/
theorem notify_return_contract (reg reg' : WSM.Registry)
    (due stale : List Dispatch.Lead) (iok : Nat → Bool) (nid : Nat)
    (recips : List Nat) :
    (Dispatch.run_sales_notifications reg due stale iok nid).2.2 =
      (Dispatch.run_sales_notifications reg' due stale iok nid).2.2 ∧
    ((Dispatch.run_sales_notifications reg due stale iok nid).2.2 =
        Except.error 500 ∨
      (Dispatch.run_sales_notifications reg due stale iok nid).2.2 =
        Except.ok { status := "ok", followup := due.length, stale := stale.length }) ∧
    (Dispatch.create_full_installation_notify reg recips iok nid).2.2 =
      (Dispatch.create_full_installation_notify reg' recips iok nid).2.2 ∧
    ((Dispatch.create_full_installation_notify reg recips iok nid).2.2 =
        Except.error 500 ∨
      (Dispatch.create_full_installation_notify reg recips iok nid).2.2 =
        Except.ok "ok") := by
  obtain ⟨_, hok1, hnid1⟩ := Dispatch.salesLoop_indep due reg reg' iok nid
  obtain ⟨_, hok⟩ := Dispatch.notifyEvents_indep recips reg reg' iok nid
  refine ⟨?_, ?_, ?_, ?_⟩
  · by_cases h1 : (Dispatch.salesLoop reg due iok nid).2.2.1 = true
    · have h1' : (Dispatch.salesLoop reg' due iok nid).2.2.1 = true := hok1 ▸ h1
      simp only [Dispatch.run_sales_notifications, if_pos h1, if_pos h1', ← hnid1]
      obtain ⟨_, hok2, _⟩ := Dispatch.salesLoop_indep stale
        (Dispatch.salesLoop reg due iok nid).1 (Dispatch.salesLoop reg' due iok nid).1
        iok (Dispatch.salesLoop reg due iok nid).2.2.2
      by_cases h2 : (Dispatch.salesLoop (Dispatch.salesLoop reg due iok nid).1 stale iok
          (Dispatch.salesLoop reg due iok nid).2.2.2).2.2.1 = true
      · have h2' := hok2 ▸ h2
        simp [if_pos h2, if_pos h2']
      · have h2' : ¬(Dispatch.salesLoop (Dispatch.salesLoop reg' due iok nid).1 stale iok
            (Dispatch.salesLoop reg due iok nid).2.2.2).2.2.1 = true := by
          rw [← hok2]; exact h2
        simp [if_neg h2, if_neg h2']
    · have h1' : ¬(Dispatch.salesLoop reg' due iok nid).2.2.1 = true := by
        rw [← hok1]; exact h1
      simp [Dispatch.run_sales_notifications, if_neg h1, if_neg h1']
  · by_cases h1 : (Dispatch.salesLoop reg due iok nid).2.2.1 = true
    · simp only [Dispatch.run_sales_notifications, if_pos h1]
      by_cases h2 : (Dispatch.salesLoop (Dispatch.salesLoop reg due iok nid).1 stale iok
          (Dispatch.salesLoop reg due iok nid).2.2.2).2.2.1 = true
      · right
        simp [if_pos h2]
      · left
        simp [if_neg h2]
    · left
      simp [Dispatch.run_sales_notifications, if_neg h1]
  · by_cases hk : (Dispatch.notifyEvents reg recips iok nid).2.2 = true
    · have hk' : (Dispatch.notifyEvents reg' recips iok nid).2.2 = true := hok ▸ hk
      simp [Dispatch.create_full_installation_notify, if_pos hk, if_pos hk']
    · have hk' : ¬(Dispatch.notifyEvents reg' recips iok nid).2.2 = true := by
        rw [← hok]; exact hk
      simp [Dispatch.create_full_installation_notify, if_neg hk, if_neg hk']
  · by_cases hk : (Dispatch.notifyEvents reg recips iok nid).2.2 = true
    · right
      simp [Dispatch.create_full_installation_notify, if_pos hk]
    · left
      simp [Dispatch.create_full_installation_notify, if_neg hk]
